import Mathlib

/-!
A Lean model of `fetch_ticket.py`, a one-shot CLI that fetches an Azure
DevOps work item and prints it as JSON.

Modelling conventions.  Python strings are `String`/`List Char`.  The two
regular expressions of the script are simple enough to be translated into
deterministic one-pass matchers; the determinism argument is given at each
definition.  Python integers are arbitrary precision and become `Nat`.
The character classes `\s` and `\d` (and `str.strip`'s whitespace set) are
modelled over their ASCII members; Python's `re` additionally accepts other
Unicode members, which no input considered by the claims uses.  Fallible
Python code is `Except PyErr`, with one constructor per exception class the
script can raise; `main`'s behaviour is a pure function of its argument
vector, the `ADO_PAT` environment value and the outcome of the single HTTP
exchange, which is passed in as a `HttpResult` value (status/reason for an
`HTTPError`, transport reason for a `URLError`, or the response body already
run through `json.loads` — `none` standing for a body that is not JSON,
which in Python raises `json.JSONDecodeError`, a subclass of `ValueError`).
-/

/-- ASCII members of the regex class `\s` and of `str.strip`'s default
whitespace set. -/
def isSpc (c : Char) : Bool :=
  c == ' ' || c == '\t' || c == '\n' || c == '\r' || c == '\x0b' || c == '\x0c'

/-- ASCII decimal digits: the regex class `\d`. -/
def isDig (c : Char) : Bool :=
  decide (48 ≤ c.toNat) && decide (c.toNat ≤ 57)

/-- Value of a digit string, as Python's `int` applied to a `\d+` match. -/
def natOfDigits (ds : List Char) : Nat :=
  ds.foldl (fun a c => a * 10 + (c.toNat - 48)) 0

/-- Match a literal at the head of the input, returning the rest. -/
def matchLit : List Char → List Char → Option (List Char)
  | [], cs => some cs
  | _ :: _, [] => none
  | p :: ps, c :: cs => if p = c then matchLit ps cs else none

/-- `str.lstrip()` over the modelled whitespace set. -/
def lstripChars (cs : List Char) : List Char := cs.dropWhile isSpc

/-- `str.rstrip()` over the modelled whitespace set. -/
def rstripChars : List Char → List Char
  | [] => []
  | c :: rest =>
    let r := rstripChars rest
    if r.isEmpty && isSpc c then [] else c :: r

/-- `str.strip()`. -/
def stripChars (cs : List Char) : List Char := rstripChars (lstripChars cs)

/-- One hex digit's value, if any (used by percent-decoding and `&#x...;`). -/
def hexVal (c : Char) : Option Nat :=
  if 48 ≤ c.toNat ∧ c.toNat ≤ 57 then some (c.toNat - 48)
  else if 97 ≤ c.toNat ∧ c.toNat ≤ 102 then some (c.toNat - 87)
  else if 65 ≤ c.toNat ∧ c.toNat ≤ 70 then some (c.toNat - 55)
  else none

/-- Percent-decoding, as `urllib.parse.unquote`: a `%` followed by two hex
digits decodes to that code unit, anything else is copied.  (Python decodes
a run of percent-encoded bytes as UTF-8; this byte-wise model agrees with it
on single-byte sequences, which is what every claim exercises, and the same
function sits on both sides of every equation that mentions decoding.) -/
def unquoteChars : List Char → List Char
  | [] => []
  | '%' :: h1 :: h2 :: rest2 =>
    match hexVal h1, hexVal h2 with
    | some a, some b => Char.ofNat (a * 16 + b) :: unquoteChars rest2
    | _, _ => '%' :: unquoteChars (h1 :: h2 :: rest2)
  | c :: rest => c :: unquoteChars rest

/-- The result of `parse_url` (the dict of line 41-45 of the script). -/
structure UrlComponents where
  organization : String
  project : String
  work_item_id : Nat
deriving DecidableEq

/-- The regex piece `https?://`: `https?` must take the `s` exactly when
the next character is `s` (otherwise `://` cannot match), so the piece is
equivalent to one of two literals. -/
def schemeSplit (cs : List Char) : Option (List Char) :=
  match matchLit "https://".data cs with
  | some r => some r
  | none => matchLit "http://".data cs

/-- The regex piece `([^/]+)/`: the greedy class runs up to the next `/`,
which no backtracking can improve because the token after the group is
exactly `/`. -/
def segSplit (cs : List Char) : Option (List Char × List Char) :=
  let s := cs.takeWhile (fun c => !(c == '/'))
  if s.isEmpty then none
  else
    match cs.dropWhile (fun c => !(c == '/')) with
    | '/' :: r => some (s, r)
    | _ => none

/-- The regex piece `(?:edit|view)/`: the alternatives differ in their
first character, so trying them in order is deterministic. -/
def editView (cs : List Char) : Option (List Char) :=
  match matchLit "edit/".data cs with
  | some r => some r
  | none => matchLit "view/".data cs

/-- The final `(\d+)`: greedy, with nothing after it. -/
def digitsSplit (cs : List Char) : Option (List Char) :=
  let ds := cs.takeWhile isDig
  if ds.isEmpty then none else some ds

/-- `re.match` of
`https?://dev\.azure\.com/([^/]+)/([^/]+)/_workitems/(?:edit|view)/(\d+)`,
returning the three groups.  The regex is deterministic (see the pieces
above), so a single left-to-right pass is equivalent.  `re.match` anchors
at the start only: trailing input is ignored. -/
def matchAdo (cs : List Char) : Option (List Char × List Char × List Char) :=
  match schemeSplit cs with
  | none => none
  | some r1 =>
    match matchLit "dev.azure.com/".data r1 with
    | none => none
    | some r2 =>
      match segSplit r2 with
      | none => none
      | some (org, r3) =>
        match segSplit r3 with
        | none => none
        | some (proj, r4) =>
          match matchLit "_workitems/".data r4 with
          | none => none
          | some r5 =>
            match editView r5 with
            | none => none
            | some r6 =>
              match digitsSplit r6 with
              | none => none
              | some ds => some (org, proj, ds)

/-- The `ValueError` message of `parse_url` (an f-string in the source). -/
def adoErrMsg (url : String) : String :=
  "Invalid Azure DevOps URL: " ++ url ++
  "\nExpected format: https://dev.azure.com/\x7borg\x7d/\x7bproject\x7d/_workitems/edit/\x7bid\x7d"

/-- `parse_url` of the script: strip the input, anchor-match the pattern,
percent-decode the project, convert the id digits to an integer; a failed
match raises `ValueError` (modelled as `Except.error` carrying `str(e)`). -/
def parse_url (url : String) : Except String UrlComponents :=
  match matchAdo (stripChars url.data) with
  | some (org, proj, ds) =>
    .ok ⟨String.mk org, String.mk (unquoteChars proj), natOfDigits ds⟩
  | none => .error (adoErrMsg url)

/-- The regex class `[a-zA-Z0-9\-_]` of the Figma pattern. -/
def figmaIdChar (c : Char) : Bool := c.isAlpha || c.isDigit || c == '-' || c == '_'

/-- Negated form of the Figma tail class `[^\s"\'<>)\}\]]`. -/
def figmaStop (c : Char) : Bool :=
  isSpc c || c == '"' || c == '\'' || c == '<' || c == '>' || c == ')' ||
  c == '}' || c == ']'

/-- Match one of several literals at the head of the input, returning the
matched literal and the rest (deterministic whenever, as below, the
alternatives pairwise differ in their first character and none is a prefix
of another). -/
def litAlt : List (List Char) → List Char → Option (List Char × List Char)
  | [], _ => none
  | lit :: alts, cs =>
    match matchLit lit cs with
    | some r => some (lit, r)
    | none => litAlt alts cs

/-- The regex piece `(?:www\.)?`: the optional group must be taken exactly
when `www.` is present (skipping it would leave the following `figma.com/`
facing a `w`). -/
def wwwSplit (cs : List Char) : List Char × List Char :=
  match matchLit "www.".data cs with
  | some r => ("www.".data, r)
  | none => ([], cs)

/-- The greedy `[a-zA-Z0-9\-_]+(?:/[^\s"\'<>)\}\]]*)?` tail of the Figma
regex: the id run, then an optional slash-led run; both greedy pieces have
nothing mandatory after them. -/
def figmaTail (cs : List Char) : Option (List Char × List Char) :=
  let idp := cs.takeWhile figmaIdChar
  if idp.isEmpty then none
  else
    match cs.drop idp.length with
    | '/' :: r =>
      let tl := r.takeWhile (fun c => !figmaStop c)
      some (idp ++ '/' :: tl, r.drop tl.length)
    | r5 => some (idp, r5)

/-- One attempt of the Figma regex
`https?://(?:www\.)?figma\.com/(?:file|design|proto)/[a-zA-Z0-9\-_]+(?:/[^\s"\'<>)\}\]]*)?`
at the head of the input, returning the matched span and the rest.
Deterministic piece by piece, as for `matchAdo`. -/
def matchFigmaAt (cs : List Char) : Option (List Char × List Char) :=
  match litAlt ["https://".data, "http://".data] cs with
  | none => none
  | some (s1, r1) =>
    match wwwSplit r1 with
    | (s2, r2) =>
      match matchLit "figma.com/".data r2 with
      | none => none
      | some r3 =>
        match litAlt ["file/".data, "design/".data, "proto/".data] r3 with
        | none => none
        | some (s4, r4) =>
          match figmaTail r4 with
          | none => none
          | some (s5, r5) =>
            some (s1 ++ s2 ++ "figma.com/".data ++ s4 ++ s5, r5)

/-- `re.search` scans left to right and reports the leftmost match. -/
def searchFigma : List Char → Option (List Char)
  | [] => none
  | c :: rest =>
    match matchFigmaAt (c :: rest) with
    | some (m, _) => some m
    | none => searchFigma rest

/-- `extract_figma_url` of the script: `None` on falsy input, else the first
match of the Figma pattern, or `None` when there is none. -/
def extract_figma_url (text : String) : Option String :=
  if text = "" then none
  else (searchFigma text.data).map String.mk

/-- One pass of `re.sub(r'<[^>]+>', ' ', s)` as a state machine: outside a
candidate tag, a `<` opens a buffer; inside, the first `>` closes it — to a
single space when at least one character was buffered (the regex needs
`[^>]+`), and to the literal `<>` otherwise (the match at that `<` failed
and scanning resumed after it; a `>` can start no match).  A `<` whose
buffer never meets a `>` is flushed literally at the end, which agrees with
`re.sub` because a later `>` would have closed the earlier `<` too. -/
def subTagsAux : List Char → Option (List Char) → List Char
  | [], none => []
  | [], some buf => '<' :: buf.reverse
  | c :: rest, none =>
    if c = '<' then subTagsAux rest (some [])
    else c :: subTagsAux rest none
  | c :: rest, some buf =>
    if c = '>' then
      if buf.isEmpty then '<' :: '>' :: subTagsAux rest none
      else ' ' :: subTagsAux rest none
    else subTagsAux rest (some (c :: buf))

/-- `re.sub(r'<[^>]+>', ' ', s)`. -/
def subTags (cs : List Char) : List Char := subTagsAux cs none

/-- The HTML entities this model decodes, longest name first for each name;
the four legacy names also decode without a `;`, as in Python's `html`
module.  The full HTML5 table is restricted to the entities the claims and
the script's inputs exercise; names outside the table are copied literally
(Python would decode more names but treats unknown ones the same way). -/
def namedEntities : List (List Char × Char) :=
  [("amp;".data, '&'), ("lt;".data, '<'), ("gt;".data, '>'),
   ("quot;".data, '"'), ("apos;".data, '\''), ("nbsp;".data, '\xa0'),
   ("amp".data, '&'), ("lt".data, '<'), ("gt".data, '>'), ("quot".data, '"')]

/-- Try each named entity as a prefix of the input. -/
def tryNamed : List (List Char × Char) → List Char → Option (Char × List Char)
  | [], _ => none
  | (nm, c) :: table, cs =>
    match matchLit nm cs with
    | some r => some (c, r)
    | none => tryNamed table cs

/-- Numeric character reference decoding as `html.unescape`: zero, the
surrogate range and out-of-range values give U+FFFD.  (Python additionally
remaps a handful of C1 control codes; no claim touches them.) -/
def decodeCodepoint (n : Nat) : Char :=
  if n = 0 || n > 1114111 || (55296 ≤ n && n ≤ 57343) then '�'
  else Char.ofNat n

/-- Decode one entity after a `&`, returning the character and the rest of
the input; numeric forms `&#nnn` and `&#xhh` take an optional trailing `;`,
as in `html.unescape`'s regex `&(#[0-9]+;?|#[xX][0-9a-fA-F]+;?|...)`. -/
def tryEntity (cs : List Char) : Option (Char × List Char) :=
  match cs with
  | '#' :: rest =>
    match rest with
    | x :: rest2 =>
      if x = 'x' || x = 'X' then
        let hs := rest2.takeWhile (fun c => (hexVal c).isSome)
        if hs.isEmpty then none
        else
          let n := hs.foldl (fun a c => a * 16 + ((hexVal c).getD 0)) 0
          match rest2.drop hs.length with
          | ';' :: r => some (decodeCodepoint n, r)
          | r => some (decodeCodepoint n, r)
      else
        let ds := rest.takeWhile isDig
        if ds.isEmpty then none
        else
          let n := natOfDigits ds
          match rest.drop ds.length with
          | ';' :: r => some (decodeCodepoint n, r)
          | r => some (decodeCodepoint n, r)
    | [] => none
  | _ => tryNamed namedEntities cs

/-- `html.unescape`, fuelled by the input length so that the recursion is
structural (each step consumes at least the character it examines, and
`tryEntity` only ever drops characters, so the fuel never runs out on the
argument `unescapeChars` passes). -/
def unescapeAux : Nat → List Char → List Char
  | 0, cs => cs
  | _ + 1, [] => []
  | fuel + 1, c :: rest =>
    if c = '&' then
      match tryEntity rest with
      | some (d, rest2) => d :: unescapeAux fuel rest2
      | none => '&' :: unescapeAux fuel rest
    else c :: unescapeAux fuel rest

/-- `html.unescape`. -/
def unescapeChars (cs : List Char) : List Char := unescapeAux cs.length cs

/-- `re.sub(r'\s+', ' ', s)`: every maximal whitespace run becomes one
space; the flag records whether the previous character was whitespace. -/
def collapseAux : Bool → List Char → List Char
  | _, [] => []
  | prev, c :: rest =>
    if isSpc c then
      if prev then collapseAux true rest else ' ' :: collapseAux true rest
    else c :: collapseAux false rest

/-- The whitespace-collapsing and stripping tail of `strip_html`. -/
def normWs (cs : List Char) : List Char :=
  rstripChars (lstripChars (collapseAux false cs))

/-- `strip_html` of the script: empty on falsy input, else strip tag spans,
decode entities, collapse whitespace, trim. -/
def strip_html (html_content : String) : String :=
  if html_content = "" then ""
  else String.mk (normWs (unescapeChars (subTags html_content.data)))

/-- JSON values, as produced by `json.loads` (numbers restricted to the
integers, which is all the work-item fields the claims touch use;
duplicate keys in a parsed object keep the last occurrence, hence
`lookupLast` below). -/
inductive Json where
  | null
  | bool (b : Bool)
  | num (n : Int)
  | str (s : String)
  | arr (elems : List Json)
  | obj (kvs : List (String × Json))

/-- Dict lookup with Python's last-key-wins insertion order. -/
def lookupLast (kvs : List (String × Json)) (k : String) : Option Json :=
  kvs.foldl (fun acc p => if p.1 = k then some p.2 else acc) none

/-- Field access on a JSON object (used only to state properties). -/
def jsonField (j : Json) (k : String) : Option Json :=
  match j with
  | .obj kvs => lookupLast kvs k
  | _ => none

/-- The exception classes the script can raise.  `ValueError` covers
`parse_url`'s error and `json.JSONDecodeError`; `RuntimeError` is the
script's `FetchError`; the remaining three are raised by the interpreter on
malformed response shapes and are caught nowhere in the script. -/
inductive PyErr where
  | valueError (msg : String)
  | runtimeError (msg : String)
  | keyError (key : String)
  | typeError (msg : String)
  | attributeError (msg : String)
deriving DecidableEq

/-- `d.get(k, dflt)`: `AttributeError` when the receiver is not a dict. -/
def pyGet (d : Json) (k : String) (dflt : Json) : Except PyErr Json :=
  match d with
  | .obj kvs => .ok ((lookupLast kvs k).getD dflt)
  | _ => .error (.attributeError "get")

/-- `d[k]`: `KeyError` on a missing key, `TypeError` off a dict. -/
def pySubscript (d : Json) (k : String) : Except PyErr Json :=
  match d with
  | .obj kvs =>
    match lookupLast kvs k with
    | some v => .ok v
    | none => .error (.keyError k)
  | _ => .error (.typeError "not subscriptable")

/-- Python truthiness of a JSON value. -/
def truthy : Json → Bool
  | .null => false
  | .bool b => b
  | .num n => !(n == 0)
  | .str s => !(s == "")
  | .arr l => !l.isEmpty
  | .obj l => !l.isEmpty

/-- `fields.get('System.Description') or ''` followed by use as a string:
falsy values give `''`; a truthy non-string later makes `re.sub` raise
`TypeError`. -/
def pyRawDesc (v : Json) : Except PyErr String :=
  if truthy v then
    match v with
    | .str s => .ok s
    | _ => .error (.typeError "expected string or bytes-like object")
  else .ok ""

/-- Lines 95-96 of the script: `fields = data.get('fields', {})` and
`raw_description = fields.get('System.Description') or ''`. -/
def rawDescription (data : Json) : Except PyErr String :=
  match pyGet data "fields" (.obj []) with
  | .error e => .error e
  | .ok fields =>
    match pyGet fields "System.Description" .null with
    | .error e => .error e
    | .ok v => pyRawDesc v

/-- Lines 101-103: keep the value unless it is a dict, in which case take
its `displayName` (or `None`). -/
def resolveAssigned : Json → Json
  | .obj kvs => (lookupLast kvs "displayName").getD .null
  | v => v

/-- Lines 95-114 of the script: shape the parsed response body into the
output record, evaluating exactly in source order (description handling,
then the assignee, then the output dict's values left to right, starting
with the `data['id']` subscript). -/
def buildTicketJson (data : Json) : Except PyErr Json :=
  match rawDescription data with
  | .error e => .error e
  | .ok rawDesc =>
    match pyGet data "fields" (.obj []) with
    | .error e => .error e
    | .ok fields =>
      match pyGet fields "System.AssignedTo" .null with
      | .error e => .error e
      | .ok araw =>
        match pySubscript data "id" with
        | .error e => .error e
        | .ok idv =>
          match pyGet fields "System.Title" (.str "") with
          | .error e => .error e
          | .ok title =>
            match pyGet fields "System.State" (.str "") with
            | .error e => .error e
            | .ok state =>
              match pyGet fields "System.WorkItemType" (.str "") with
              | .error e => .error e
              | .ok wtype =>
                match pyGet data "_links" (.obj []) with
                | .error e => .error e
                | .ok links =>
                  match pyGet links "html" (.obj []) with
                  | .error e => .error e
                  | .ok htmlv =>
                    match pyGet htmlv "href" (.str "") with
                    | .error e => .error e
                    | .ok href =>
                      .ok (.obj [("id", idv), ("title", title),
                        ("description", .str (strip_html rawDesc)),
                        ("state", state), ("type", wtype),
                        ("assignedTo", resolveAssigned araw),
                        ("url", href),
                        ("figmaUrl",
                          match extract_figma_url rawDesc with
                          | some u => .str u
                          | none => .null)])

/-- The observable outcome of the one HTTP exchange (see the module
comment): an `HTTPError` status/reason, a `URLError` reason, or a 2xx body
already run through `json.loads` (`none` = not JSON). -/
inductive HttpResult where
  | httpError (code : Nat) (reason : String)
  | urlError (reason : String)
  | success (body : Option Json)

/-- The request `fetch_work_item` issues, by its components (the URL text
built from them on lines 70-73 is not observed by any claim). -/
structure AdoRequest where
  organization : String
  project : String
  work_item_id : Nat
deriving DecidableEq

/-- The guidance sentence of the HTTP-error message. -/
def fetchGuidance : String :=
  "Check that ADO_PAT is valid and has read access to this project."

/-- The `RuntimeError` message for an HTTP error status (lines 88-91). -/
def fetchErrMsg (code : Nat) (reason : String) (work_item_id : Nat) : String :=
  "HTTP " ++ toString code ++ " " ++ reason ++ " — failed to fetch work item " ++
  toString work_item_id ++ ". " ++ fetchGuidance

/-- `fetch_work_item`: one request, then translate the exchange's outcome.
The first component is the list of requests issued (always exactly one). -/
def fetch_work_item (organization project : String) (work_item_id : Nat)
    (pat : String) (resp : HttpResult) : List AdoRequest × Except PyErr Json :=
  ([⟨organization, project, work_item_id⟩],
    match resp with
    | .httpError code reason =>
      .error (.runtimeError (fetchErrMsg code reason work_item_id))
    | .urlError reason => .error (.runtimeError ("Network error: " ++ reason))
    | .success none =>
      .error (.valueError "Expecting value: line 1 column 1 (char 0)")
    | .success (some data) => buildTicketJson data)

/-- The body of `main`'s `try` block: parse, then fetch.  A `parse_url`
failure is a `ValueError` and issues no request. -/
def pipeline (url pat : String) (resp : HttpResult) :
    List AdoRequest × Except PyErr Json :=
  match parse_url url with
  | .error m => ([], .error (.valueError m))
  | .ok c => fetch_work_item c.organization c.project c.work_item_id pat resp

/-- A line printed to standard output.  Error envelopes are modelled down
to their exact text; the pretty-printed success record
(`json.dumps(ticket, indent=2)`) is carried as the JSON value it
serialises, because no claim observes that text. -/
inductive PrintedLine where
  | text (s : String)
  | ticketJson (j : Json)

/-- Lower-case hex digit, as `json.dumps` emits in `\uXXXX` escapes. -/
def hexDigit (n : Nat) : Char :=
  if n < 10 then Char.ofNat (48 + n) else Char.ofNat (87 + n)

/-- `json.dumps` escaping of one character (`ensure_ascii` default on:
non-ASCII becomes `\uXXXX`, a surrogate pair above the BMP). -/
def escChar (c : Char) : List Char :=
  if c = '"' then ['\\', '"']
  else if c = '\\' then ['\\', '\\']
  else if c = '\n' then ['\\', 'n']
  else if c = '\t' then ['\\', 't']
  else if c = '\r' then ['\\', 'r']
  else if c = '\x08' then ['\\', 'b']
  else if c = '\x0c' then ['\\', 'f']
  else if decide (c.toNat < 32) || decide (c.toNat > 126) then
    if decide (c.toNat ≤ 65535) then
      ['\\', 'u', hexDigit (c.toNat / 4096 % 16), hexDigit (c.toNat / 256 % 16),
       hexDigit (c.toNat / 16 % 16), hexDigit (c.toNat % 16)]
    else
      let v := c.toNat - 65536
      let hi := 55296 + v / 1024
      let lo := 56320 + v % 1024
      ['\\', 'u', hexDigit (hi / 4096 % 16), hexDigit (hi / 256 % 16),
       hexDigit (hi / 16 % 16), hexDigit (hi % 16),
       '\\', 'u', hexDigit (lo / 4096 % 16), hexDigit (lo / 256 % 16),
       hexDigit (lo / 16 % 16), hexDigit (lo % 16)]
  else [c]

/-- Escape every character of a string body. -/
def escChars : List Char → List Char
  | [] => []
  | c :: rest => escChar c ++ escChars rest

/-- A JSON string literal. -/
def jsonQuote (s : String) : String :=
  String.mk ('"' :: (escChars s.data ++ ['"']))

/-- How the process ends: `sys.exit(code)`, or an exception that no
`except` clause catches (Python then prints a traceback and exits 1). -/
inductive Outcome where
  | exited (code : Nat)
  | crashed (e : PyErr)
deriving DecidableEq

/-- The observable behaviour of one run: lines printed to each stream, the
requests issued, and how the process ended. -/
structure RunResult where
  stdout : List PrintedLine
  stderr : List String
  requests : List AdoRequest
  outcome : Outcome

/-- The four usage lines printed to stderr when the argument is missing. -/
def usageLines : List String :=
  ["Usage: fetch_ticket.py <azure_devops_url>", "",
   "Required environment variable:",
   "  ADO_PAT  — Azure DevOps Personal Access Token"]

/-- The missing-credential message (lines 130-131, one concatenated
string). -/
def credErrMsg : String :=
  "ADO_PAT environment variable is not set. Export your Azure DevOps Personal Access Token: export ADO_PAT=<your_token>"

/-- `print(json.dumps({'error': msg}))`'s line: `json.dumps` of the
one-entry dict `{'error': msg}` with its default separators. -/
def errLine (msg : String) : String :=
  "\x7b\"error\": " ++ jsonQuote msg ++ "\x7d"

/-- Which exceptions `except (ValueError, RuntimeError)` catches. -/
def isCaught : PyErr → Bool
  | .valueError _ => true
  | .runtimeError _ => true
  | _ => false

/-- `str(e)` for the modelled exceptions. -/
def pyStr : PyErr → String
  | .valueError m => m
  | .runtimeError m => m
  | .keyError k => "'" ++ k ++ "'"
  | .typeError m => m
  | .attributeError m => m

/-- `main` of the script, as a function of the argument vector, the
`ADO_PAT` environment value and the HTTP exchange's outcome.  Order as in
the source: missing argument → usage on stderr, exit 1; falsy credential →
error JSON on stdout, exit 1, no request; then the `try` block, whose
`ValueError`/`RuntimeError` becomes an error JSON on stdout and exit 1,
while any other exception escapes (a traceback, modelled as `crashed`). -/
def mainRun (argv : List String) (env : Option String) (resp : HttpResult) :
    RunResult :=
  match argv with
  | _ :: url :: _ =>
    let pat := env.getD ""
    if pat = "" then
      ⟨[.text (errLine credErrMsg)], [], [], .exited 1⟩
    else
      match pipeline url pat resp with
      | (reqs, .ok ticket) => ⟨[.ticketJson ticket], [], reqs, .exited 0⟩
      | (reqs, .error e) =>
        if isCaught e then ⟨[.text (errLine (pyStr e))], [], reqs, .exited 1⟩
        else ⟨[], [], reqs, .crashed e⟩
  | _ => ⟨[], usageLines, [], .exited 1⟩

/-- `needle` occurs contiguously inside `hay`. -/
def containsSub (needle hay : String) : Prop :=
  ∃ s t, hay.data = s ++ needle.data ++ t

/-- The head of the list, if any, is not a digit (used to say that a digit
run is maximal). -/
def noLeadDig : List Char → Prop
  | [] => True
  | c :: _ => isDig c = false

instance : ∀ l, Decidable (noLeadDig l)
  | [] => .isTrue trivial
  | c :: _ => (inferInstance : Decidable (isDig c = false))

/-- No two adjacent spaces (stability of collapsed text). -/
def noDbl : List Char → Prop
  | [] => True
  | [_] => True
  | a :: b :: t => ¬(a = ' ' ∧ b = ' ') ∧ noDbl (b :: t)

/-- Every whitespace character of the list is a plain space. -/
def spacesOnly (cs : List Char) : Prop := ∀ c ∈ cs, isSpc c = true → c = ' '

set_option maxRecDepth 10000

/-! ### Matcher lemmas -/

theorem matchLit_append (lit rest : List Char) :
    matchLit lit (lit ++ rest) = some rest := by
  induction lit with
  | nil => rfl
  | cons c cs ih => simp [matchLit, ih]

theorem matchLit_eq_append {lit cs rest : List Char}
    (h : matchLit lit cs = some rest) : cs = lit ++ rest := by
  induction lit generalizing cs with
  | nil =>
    simp only [matchLit, Option.some.injEq] at h
    simp [h]
  | cons c ct ih =>
    cases cs with
    | nil => simp [matchLit] at h
    | cons d dt =>
      by_cases hc : c = d
      · subst hc
        simp only [matchLit, if_pos rfl] at h
        simp [ih h]
      · simp [matchLit, hc] at h

theorem takeWhile_append_not (p : Char → Bool) (xs ys : List Char)
    (hx : ∀ c ∈ xs, p c = true)
    (hy : ∀ y, ys.head? = some y → p y = false) :
    (xs ++ ys).takeWhile p = xs ∧ (xs ++ ys).dropWhile p = ys := by
  induction xs with
  | nil =>
    cases ys with
    | nil => simp
    | cons y t =>
      have := hy y rfl
      simp [List.takeWhile_cons, List.dropWhile_cons, this]
  | cons x xt ih =>
    have hpx : p x = true := hx x (by simp)
    have ih2 := ih (fun c hc => hx c (by simp [hc]))
    simp [List.takeWhile_cons, List.dropWhile_cons, hpx, ih2.1, ih2.2]

theorem schemeSplit_https (rest : List Char) :
    schemeSplit ("https://".data ++ rest) = some rest := by
  unfold schemeSplit
  rw [matchLit_append]

theorem segSplit_append (seg rest : List Char) (hseg : seg ≠ [])
    (hs : ∀ c ∈ seg, c ≠ '/') :
    segSplit (seg ++ '/' :: rest) = some (seg, rest) := by
  have hx : ∀ c ∈ seg, (!(c == '/')) = true := by
    intro c hc
    simpa using hs c hc
  have hy : ∀ y, ('/' :: rest).head? = some y → (!(y == '/')) = false := by
    intro y hyy
    simp only [List.head?_cons, Option.some.injEq] at hyy
    subst hyy
    simp
  have h := takeWhile_append_not _ seg ('/' :: rest) hx hy
  have hne : seg.isEmpty = false := by
    cases seg with
    | nil => exact absurd rfl hseg
    | cons a t => rfl
  simp [segSplit, h.1, h.2, hne]

theorem editView_edit (rest : List Char) :
    editView ("edit/".data ++ rest) = some rest := by
  unfold editView
  rw [matchLit_append]

theorem editView_view (rest : List Char) :
    editView ("view/".data ++ rest) = some rest := by
  have h1 : matchLit "edit/".data ("view/".data ++ rest) = none := rfl
  unfold editView
  rw [h1, matchLit_append]

theorem digitsSplit_append (ds rest : List Char) (hds : ds ≠ [])
    (hdsd : ∀ c ∈ ds, isDig c = true) (hrest : noLeadDig rest) :
    digitsSplit (ds ++ rest) = some ds := by
  have hy : ∀ y, rest.head? = some y → isDig y = false := by
    intro y hy2
    cases rest with
    | nil => simp at hy2
    | cons r t =>
      simp only [List.head?_cons, Option.some.injEq] at hy2
      subst hy2
      exact hrest
  have h := takeWhile_append_not isDig ds rest hdsd hy
  have hne : ds.isEmpty = false := by
    cases ds with
    | nil => exact absurd rfl hds
    | cons a t => rfl
  simp [digitsSplit, h.1, hne]

theorem matchAdo_spine (org proj ds rest : List Char) (ed : Bool)
    (horg : org ≠ []) (horgs : ∀ c ∈ org, c ≠ '/')
    (hproj : proj ≠ []) (hprojs : ∀ c ∈ proj, c ≠ '/')
    (hds : ds ≠ []) (hdsd : ∀ c ∈ ds, isDig c = true)
    (hrest : noLeadDig rest) :
    matchAdo ("https://dev.azure.com/".data ++ org ++ '/' :: proj ++ '/' ::
      ("_workitems/".data ++ (cond ed "edit/" "view/").data ++ ds ++ rest)) =
      some (org, proj, ds) := by
  have h0 : "https://dev.azure.com/".data ++ org ++ '/' :: proj ++ '/' ::
      ("_workitems/".data ++ (cond ed "edit/" "view/").data ++ ds ++ rest) =
      "https://".data ++ ("dev.azure.com/".data ++ (org ++ '/' ::
        (proj ++ '/' :: ("_workitems/".data ++
          ((cond ed "edit/" "view/").data ++ (ds ++ rest)))))) := by
    have hsp : "https://dev.azure.com/".data =
        "https://".data ++ "dev.azure.com/".data := by decide
    simp [hsp, List.append_assoc]
  rw [h0]
  cases ed with
  | true =>
    rw [cond_true]
    unfold matchAdo
    rw [schemeSplit_https]
    dsimp only
    rw [matchLit_append]
    dsimp only
    rw [segSplit_append _ _ horg horgs]
    dsimp only
    rw [segSplit_append _ _ hproj hprojs]
    dsimp only
    rw [matchLit_append]
    dsimp only
    rw [editView_edit]
    dsimp only
    rw [digitsSplit_append _ _ hds hdsd hrest]
  | false =>
    rw [cond_false]
    unfold matchAdo
    rw [schemeSplit_https]
    dsimp only
    rw [matchLit_append]
    dsimp only
    rw [segSplit_append _ _ horg horgs]
    dsimp only
    rw [segSplit_append _ _ hproj hprojs]
    dsimp only
    rw [matchLit_append]
    dsimp only
    rw [editView_view]
    dsimp only
    rw [digitsSplit_append _ _ hds hdsd hrest]

/-! ### Stripping lemmas -/

theorem dropWhile_append_all (p : Char → Bool) (xs ys : List Char)
    (hx : ∀ c ∈ xs, p c = true) :
    (xs ++ ys).dropWhile p = ys.dropWhile p := by
  induction xs with
  | nil => rfl
  | cons x xt ih =>
    have hpx : p x = true := hx x (by simp)
    simp [List.dropWhile_cons, hpx, ih (fun c hc => hx c (by simp [hc]))]

theorem lstrip_spine (ws : List Char) (c : Char) (mid : List Char)
    (hws : ∀ x ∈ ws, isSpc x = true) (hc : isSpc c = false) :
    lstripChars (ws ++ c :: mid) = c :: mid := by
  unfold lstripChars
  rw [dropWhile_append_all _ _ _ hws]
  simp [List.dropWhile_cons, hc]

theorem getLast?_append_right (l₁ l₂ : List Char) (h : l₂ ≠ []) :
    (l₁ ++ l₂).getLast? = l₂.getLast? := by
  induction l₁ with
  | nil => rfl
  | cons a t ih =>
    have hne : t ++ l₂ ≠ [] := by
      simp only [ne_eq, List.append_eq_nil]
      rintro ⟨-, h2⟩
      exact h h2
    obtain ⟨b, u, hbu⟩ : ∃ b u, t ++ l₂ = b :: u := by
      cases h' : t ++ l₂ with
      | nil => exact absurd h' hne
      | cons b u => exact ⟨b, u, rfl⟩
    rw [List.cons_append, hbu, List.getLast?_cons_cons, ← hbu, ih]

theorem mem_of_getLast?_eq (l : List Char) (c : Char) (h : l.getLast? = some c) :
    c ∈ l := by
  induction l with
  | nil => simp at h
  | cons a t ih =>
    cases t with
    | nil =>
      simp only [List.getLast?_singleton, Option.some.injEq] at h
      simp [h]
    | cons b u =>
      rw [List.getLast?_cons_cons] at h
      exact List.mem_cons_of_mem _ (ih h)

theorem isSpc_false_of_isDig (c : Char) (h : isDig c = true) : isSpc c = false := by
  simp only [isDig, Bool.and_eq_true, decide_eq_true_eq] at h
  have hlow : ∀ d : Char, d.toNat < 48 → (c == d) = false := by
    intro d hd
    refine beq_eq_false_iff_ne.mpr ?_
    rintro rfl
    omega
  simp only [isSpc]
  rw [hlow ' ' (by decide), hlow '\t' (by decide), hlow '\n' (by decide),
    hlow '\r' (by decide), hlow '\x0b' (by decide), hlow '\x0c' (by decide)]
  rfl

theorem rstrip_append_keep (xs ys : List Char)
    (hlast : ∀ c, xs.getLast? = some c → isSpc c = false) :
    rstripChars (xs ++ ys) = xs ++ rstripChars ys := by
  induction xs with
  | nil => rfl
  | cons x xt ih =>
    cases xt with
    | nil =>
      have hx : isSpc x = false := hlast x rfl
      show rstripChars (x :: ys) = x :: rstripChars ys
      simp [rstripChars, hx]
    | cons y yt =>
      have hlast2 : ∀ c, (y :: yt).getLast? = some c → isSpc c = false := by
        intro c hc
        exact hlast c (by rw [List.getLast?_cons_cons]; exact hc)
      have ih2 := ih hlast2
      show rstripChars (x :: ((y :: yt) ++ ys)) = x :: ((y :: yt) ++ rstripChars ys)
      have hstep : rstripChars (x :: ((y :: yt) ++ ys)) =
          if (rstripChars ((y :: yt) ++ ys)).isEmpty && isSpc x then []
          else x :: rstripChars ((y :: yt) ++ ys) := rfl
      rw [hstep, ih2]
      simp

theorem rstrip_eq_append (l : List Char) :
    ∃ t, l = rstripChars l ++ t ∧ ∀ c ∈ t, isSpc c = true := by
  induction l with
  | nil => exact ⟨[], rfl, by simp⟩
  | cons c rest ih =>
    obtain ⟨t, ht, hts⟩ := ih
    cases hb : ((rstripChars rest).isEmpty && isSpc c) with
    | false =>
      refine ⟨t, ?_, hts⟩
      have hc : rstripChars (c :: rest) = c :: rstripChars rest := by
        simp only [rstripChars]
        rw [hb]
        rfl
      rw [hc, List.cons_append, ← ht]
    | true =>
      have h1 : (rstripChars rest).isEmpty = true ∧ isSpc c = true := by
        simpa [Bool.and_eq_true] using hb
      have hre : rstripChars rest = [] := by
        simpa using h1.1
      refine ⟨c :: t, ?_, ?_⟩
      · have hc : rstripChars (c :: rest) = [] := by
          simp only [rstripChars]
          rw [hb]
          rfl
        rw [hc, List.nil_append]
        rw [hre, List.nil_append] at ht
        rw [ht]
      · intro d hd
        rcases List.mem_cons.mp hd with rfl | hd2
        · exact h1.2
        · exact hts d hd2

theorem noLeadDig_rstrip (rest : List Char) (h : noLeadDig rest) :
    noLeadDig (rstripChars rest) := by
  obtain ⟨t, ht, -⟩ := rstrip_eq_append rest
  cases hr : rstripChars rest with
  | nil => trivial
  | cons a u =>
    rw [hr] at ht
    rw [ht] at h
    exact h

theorem stripChars_spine (ws mid ds rest : List Char)
    (hws : ∀ c ∈ ws, isSpc c = true)
    (hds : ds ≠ []) (hdsd : ∀ c ∈ ds, isDig c = true) :
    stripChars (ws ++ 'h' :: (mid ++ ds) ++ rest) =
      'h' :: (mid ++ ds) ++ rstripChars rest := by
  unfold stripChars
  have h1 : ws ++ 'h' :: (mid ++ ds) ++ rest = ws ++ 'h' :: ((mid ++ ds) ++ rest) := by
    simp [List.append_assoc]
  rw [h1, lstrip_spine ws 'h' _ hws (by decide)]
  have hl : ∀ c, ('h' :: (mid ++ ds)).getLast? = some c → isSpc c = false := by
    intro c hc
    have h3 : ('h' :: (mid ++ ds)).getLast? = ds.getLast? := by
      have h4 : ('h' :: (mid ++ ds)) = ('h' :: mid) ++ ds := by simp
      rw [h4, getLast?_append_right _ _ hds]
    rw [h3] at hc
    exact isSpc_false_of_isDig c (hdsd c (mem_of_getLast?_eq ds c hc))
  have h2 : 'h' :: ((mid ++ ds) ++ rest) = ('h' :: (mid ++ ds)) ++ rest := rfl
  rw [h2, rstrip_append_keep _ _ hl]

theorem parse_master (ws org proj ds rest : List Char) (ed : Bool)
    (hws : ∀ c ∈ ws, isSpc c = true)
    (horg : org ≠ []) (horgs : ∀ c ∈ org, c ≠ '/')
    (hproj : proj ≠ []) (hprojs : ∀ c ∈ proj, c ≠ '/')
    (hds : ds ≠ []) (hdsd : ∀ c ∈ ds, isDig c = true)
    (hrest : noLeadDig rest) :
    parse_url (String.mk (ws ++ "https://dev.azure.com/".data ++ org ++ '/' :: proj ++ '/' ::
      ("_workitems/".data ++ (cond ed "edit/" "view/").data ++ ds ++ rest))) =
    Except.ok ⟨String.mk org, String.mk (unquoteChars proj), natOfDigits ds⟩ := by
  have hh : "https://dev.azure.com/".data = 'h' :: "ttps://dev.azure.com/".data := by
    decide
  have hform : ws ++ "https://dev.azure.com/".data ++ org ++ '/' :: proj ++ '/' ::
      ("_workitems/".data ++ (cond ed "edit/" "view/").data ++ ds ++ rest) =
      ws ++ 'h' :: (("ttps://dev.azure.com/".data ++ org ++ '/' :: proj ++ '/' ::
        ("_workitems/".data ++ (cond ed "edit/" "view/").data)) ++ ds) ++ rest := by
    simp [hh, List.append_assoc]
  rw [hform]
  unfold parse_url
  have hd : (String.mk (ws ++ 'h' :: (("ttps://dev.azure.com/".data ++ org ++ '/' :: proj ++ '/' ::
      ("_workitems/".data ++ (cond ed "edit/" "view/").data)) ++ ds) ++ rest)).data =
      ws ++ 'h' :: (("ttps://dev.azure.com/".data ++ org ++ '/' :: proj ++ '/' ::
      ("_workitems/".data ++ (cond ed "edit/" "view/").data)) ++ ds) ++ rest := rfl
  rw [hd, stripChars_spine _ _ _ _ hws hds hdsd]
  have hform2 : 'h' :: (("ttps://dev.azure.com/".data ++ org ++ '/' :: proj ++ '/' ::
      ("_workitems/".data ++ (cond ed "edit/" "view/").data)) ++ ds) ++ rstripChars rest =
      "https://dev.azure.com/".data ++ org ++ '/' :: proj ++ '/' ::
      ("_workitems/".data ++ (cond ed "edit/" "view/").data ++ ds ++ rstripChars rest) := by
    simp [hh, List.append_assoc]
  rw [hform2, matchAdo_spine org proj ds _ ed horg horgs hproj hprojs hds hdsd
    (noLeadDig_rstrip rest hrest)]

/-! ### Claim C10 -/

/-- C10: `parse_url` first trims surrounding whitespace and then matches
only a prefix of the input: any string that, after trimming, begins with
`https://dev.azure.com/` + org + `/` + proj + `/_workitems/edit/` (or
`view`) + digits parses successfully whatever characters follow, the id
being the maximal digit run at that position (`noLeadDig rest` says the
run `ds` is maximal). -/
theorem parse_url_prefix_and_maximal_id (ws org proj ds rest : List Char) (ed : Bool)
    (hws : ∀ c ∈ ws, isSpc c = true)
    (horg : org ≠ []) (horgs : ∀ c ∈ org, c ≠ '/')
    (hproj : proj ≠ []) (hprojs : ∀ c ∈ proj, c ≠ '/')
    (hds : ds ≠ []) (hdsd : ∀ c ∈ ds, isDig c = true)
    (hrest : noLeadDig rest) :
    parse_url (String.mk (ws ++ "https://dev.azure.com/".data ++ org ++ '/' :: proj ++ '/' ::
      ("_workitems/".data ++ (cond ed "edit/" "view/").data ++ ds ++ rest))) =
    Except.ok ⟨String.mk org, String.mk (unquoteChars proj), natOfDigits ds⟩ :=
  parse_master ws org proj ds rest ed hws horg horgs hproj hprojs hds hdsd hrest

theorem parse_url_prefix_and_maximal_id_witness :
    (∀ c ∈ [' '], isSpc c = true) ∧ ("o" : String).data ≠ [] ∧
    noLeadDig ("/more?q=1 " : String).data ∧
    parse_url (String.mk ([' '] ++ "https://dev.azure.com/".data ++ "o".data ++ '/' :: "p".data ++ '/' ::
      ("_workitems/".data ++ (cond true "edit/" "view/").data ++ "42".data ++ "/more?q=1 ".data))) =
    Except.ok ⟨String.mk "o".data, String.mk (unquoteChars "p".data), natOfDigits "42".data⟩ :=
  ⟨by decide, by decide, by decide,
   parse_url_prefix_and_maximal_id [' '] "o".data "p".data "42".data "/more?q=1 ".data true
     (by decide) (by decide) (by decide) (by decide) (by decide) (by decide)
     (by decide) (by decide)⟩

/-! ### Claim C1 -/

/-- C1: for every URL of the exact form
`https://dev.azure.com/{org}/{proj}/_workitems/edit/{n}` (or `view`), with
`org` and `proj` non-empty slash-free segments and `n` a non-empty digit
string, `parse_url` succeeds and returns the organization verbatim, the
project percent-decoded, and the id's integer value. -/
theorem parse_url_valid (org proj n : String) (ed : Bool)
    (horg : org.data ≠ []) (horgs : ∀ c ∈ org.data, c ≠ '/')
    (hproj : proj.data ≠ []) (hprojs : ∀ c ∈ proj.data, c ≠ '/')
    (hn : n.data ≠ []) (hnd : ∀ c ∈ n.data, isDig c = true) :
    parse_url ("https://dev.azure.com/" ++ org ++ "/" ++ proj ++ "/_workitems/" ++
      (cond ed "edit" "view") ++ "/" ++ n) =
    Except.ok ⟨org, String.mk (unquoteChars proj.data), natOfDigits n.data⟩ := by
  have hs : ("https://dev.azure.com/" ++ org ++ "/" ++ proj ++ "/_workitems/" ++
      (cond ed "edit" "view") ++ "/" ++ n) =
      String.mk ([] ++ "https://dev.azure.com/".data ++ org.data ++ '/' :: proj.data ++ '/' ::
        ("_workitems/".data ++ (cond ed "edit/" "view/").data ++ n.data ++ [])) := by
    have hdataeq : ("https://dev.azure.com/" ++ org ++ "/" ++ proj ++ "/_workitems/" ++
        (cond ed "edit" "view") ++ "/" ++ n).data =
        [] ++ "https://dev.azure.com/".data ++ org.data ++ '/' :: proj.data ++ '/' ::
        ("_workitems/".data ++ (cond ed "edit/" "view/").data ++ n.data ++ []) := by
      cases ed <;> simp [String.data_append, List.append_assoc]
    calc ("https://dev.azure.com/" ++ org ++ "/" ++ proj ++ "/_workitems/" ++
        (cond ed "edit" "view") ++ "/" ++ n) =
        String.mk ("https://dev.azure.com/" ++ org ++ "/" ++ proj ++ "/_workitems/" ++
          (cond ed "edit" "view") ++ "/" ++ n).data := rfl
      _ = _ := by rw [hdataeq]
  rw [hs]
  exact parse_master [] org.data proj.data n.data [] ed (by simp) horg horgs
    hproj hprojs hn hnd trivial

theorem parse_url_valid_witness :
    ("myorg" : String).data ≠ [] ∧ (∀ c ∈ ("My%20Proj" : String).data, c ≠ '/') ∧
    (∀ c ∈ ("123" : String).data, isDig c = true) ∧
    parse_url ("https://dev.azure.com/" ++ "myorg" ++ "/" ++ "My%20Proj" ++ "/_workitems/" ++
      (cond true "edit" "view") ++ "/" ++ "123") =
    Except.ok ⟨"myorg", String.mk (unquoteChars ("My%20Proj" : String).data),
      natOfDigits ("123" : String).data⟩ :=
  ⟨by decide, by decide, by decide,
   parse_url_valid "myorg" "My%20Proj" "123" true (by decide) (by decide)
     (by decide) (by decide) (by decide) (by decide)⟩

/-! ### Claim C4 -/

/-- C4: when the (stripped) input does not match the URL pattern,
`parse_url` fails with a `ValueError` whose message carries the offending
input and the expected format, and the program issues no request for any
credential and any HTTP outcome (`fetch_work_item` is never reached). -/
theorem parse_url_invalid_no_fetch (url : String)
    (h : matchAdo (stripChars url.data) = none) :
    parse_url url = Except.error (adoErrMsg url) ∧
    containsSub url (adoErrMsg url) ∧
    containsSub "Expected format: https://dev.azure.com/\x7borg\x7d/\x7bproject\x7d/_workitems/edit/\x7bid\x7d"
      (adoErrMsg url) ∧
    ∀ env resp, (mainRun ["fetch_ticket.py", url] env resp).requests = [] := by
  have hp : parse_url url = Except.error (adoErrMsg url) := by
    unfold parse_url
    rw [h]
  refine ⟨hp, ?_, ?_, ?_⟩
  · exact ⟨"Invalid Azure DevOps URL: ".data,
      "\nExpected format: https://dev.azure.com/\x7borg\x7d/\x7bproject\x7d/_workitems/edit/\x7bid\x7d".data,
      by simp [adoErrMsg, List.append_assoc]⟩
  · refine ⟨"Invalid Azure DevOps URL: ".data ++ url.data ++ ['\n'], [], ?_⟩
    have hsplit : ("\nExpected format: https://dev.azure.com/\x7borg\x7d/\x7bproject\x7d/_workitems/edit/\x7bid\x7d" : String).data =
        '\n' :: ("Expected format: https://dev.azure.com/\x7borg\x7d/\x7bproject\x7d/_workitems/edit/\x7bid\x7d" : String).data := by
      decide
    simp [adoErrMsg, hsplit, List.append_assoc]
  · intro env resp
    by_cases hpat : env.getD "" = ""
    · simp [mainRun, hpat]
    · simp [mainRun, hpat, pipeline, hp, isCaught]

theorem parse_url_invalid_no_fetch_witness :
    matchAdo (stripChars ("https://example.com/x" : String).data) = none ∧
    parse_url "https://example.com/x" = Except.error (adoErrMsg "https://example.com/x") ∧
    (mainRun ["fetch_ticket.py", "https://example.com/x"] (some "token")
      (.urlError "refused")).requests = [] :=
  ⟨by decide,
   (parse_url_invalid_no_fetch "https://example.com/x" (by decide)).1,
   (parse_url_invalid_no_fetch "https://example.com/x" (by decide)).2.2.2
     (some "token") (.urlError "refused")⟩

/-! ### Claim C5 -/

/-- C5: with the URL argument present but the credential unset or empty,
the run prints exactly one line — the error JSON naming `ADO_PAT` and how
to set it — to standard output (stderr stays empty), exits with status 1,
and issues no request; the printed line contains no newline. -/
theorem missing_credential_json_error (url : String) (env : Option String)
    (resp : HttpResult) (h : env = none ∨ env = some "") :
    mainRun ["fetch_ticket.py", url] env resp =
      ⟨[.text (errLine credErrMsg)], [], [], .exited 1⟩ ∧
    containsSub "ADO_PAT" credErrMsg ∧
    containsSub "export ADO_PAT=<your_token>" credErrMsg ∧
    '\n' ∉ (errLine credErrMsg).data := by
  refine ⟨?_, ?_, ?_, by decide⟩
  · rcases h with rfl | rfl <;> rfl
  · exact ⟨[], " environment variable is not set. Export your Azure DevOps Personal Access Token: export ADO_PAT=<your_token>".data,
      by decide⟩
  · exact ⟨"ADO_PAT environment variable is not set. Export your Azure DevOps Personal Access Token: ".data,
      [], by decide⟩

theorem missing_credential_json_error_witness :
    ((none : Option String) = none ∨ (none : Option String) = some "") ∧
    mainRun ["fetch_ticket.py", "https://dev.azure.com/o/p/_workitems/edit/7"] none
      (.httpError 401 "Unauthorized") =
      ⟨[.text (errLine credErrMsg)], [], [], .exited 1⟩ :=
  ⟨Or.inl rfl,
   (missing_credential_json_error "https://dev.azure.com/o/p/_workitems/edit/7" none
     (.httpError 401 "Unauthorized") (Or.inl rfl)).1⟩

/-! ### Claim C7 -/

/-- C7: an HTTP error status makes `fetch_work_item` fail with a
`RuntimeError` (the script's `FetchError`) whose message carries the
numeric status, the status text, the work item id and the
credential/permission guidance; exactly one request is issued, so the
failure is not retried. -/
theorem fetch_http_error_message (organization project : String)
    (work_item_id : Nat) (pat : String) (code : Nat) (reason : String) :
    fetch_work_item organization project work_item_id pat (.httpError code reason) =
      ([⟨organization, project, work_item_id⟩],
       Except.error (.runtimeError (fetchErrMsg code reason work_item_id))) ∧
    containsSub (toString code) (fetchErrMsg code reason work_item_id) ∧
    containsSub reason (fetchErrMsg code reason work_item_id) ∧
    containsSub (toString work_item_id) (fetchErrMsg code reason work_item_id) ∧
    containsSub fetchGuidance (fetchErrMsg code reason work_item_id) ∧
    (fetch_work_item organization project work_item_id pat
      (.httpError code reason)).1.length = 1 := by
  refine ⟨rfl, ?_, ?_, ?_, ?_, rfl⟩
  · exact ⟨"HTTP ".data,
      (" " ++ reason ++ " — failed to fetch work item " ++ toString work_item_id ++
        ". " ++ fetchGuidance).data,
      by simp [fetchErrMsg, List.append_assoc]⟩
  · exact ⟨("HTTP " ++ toString code ++ " ").data,
      (" — failed to fetch work item " ++ toString work_item_id ++ ". " ++ fetchGuidance).data,
      by simp [fetchErrMsg, List.append_assoc]⟩
  · exact ⟨("HTTP " ++ toString code ++ " " ++ reason ++ " — failed to fetch work item ").data,
      (". " ++ fetchGuidance).data,
      by simp [fetchErrMsg, List.append_assoc]⟩
  · exact ⟨("HTTP " ++ toString code ++ " " ++ reason ++ " — failed to fetch work item " ++
      toString work_item_id ++ ". ").data, [],
      by simp [fetchErrMsg, List.append_assoc]⟩

/-! ### Claim C2 -/

/-- C2 (amended): with the URL argument present and the credential set,
every `ValueError` (`InvalidUrlError`) or `RuntimeError` (`FetchError`)
produced by the parse-fetch pipeline is caught at the top level and becomes
exactly one `\x7b"error": <message>\x7d` line on standard output followed
by exit status 1; nothing else is printed on either stream, so no partial
output precedes the error.  (The original claim's universal "no run ever
terminates with an uncaught exception, for any response body" is refuted by
`mainRun_uncaught_keyError`.) -/
theorem mainRun_catches_pipeline_errors (url pat : String) (resp : HttpResult)
    (reqs : List AdoRequest) (e : PyErr)
    (hpat : pat ≠ "")
    (h : pipeline url pat resp = (reqs, Except.error e))
    (hc : isCaught e = true) :
    mainRun ["fetch_ticket.py", url] (some pat) resp =
      ⟨[.text (errLine (pyStr e))], [], reqs, .exited 1⟩ := by
  simp [mainRun, Option.getD, hpat, h, hc]

theorem mainRun_catches_pipeline_errors_witness :
    ("token" : String) ≠ "" ∧
    pipeline "https://dev.azure.com/o/p/_workitems/edit/7" "token"
      (.httpError 401 "Unauthorized") =
      ([⟨"o", "p", 7⟩], Except.error (.runtimeError (fetchErrMsg 401 "Unauthorized" 7))) ∧
    isCaught (.runtimeError (fetchErrMsg 401 "Unauthorized" 7)) = true ∧
    mainRun ["fetch_ticket.py", "https://dev.azure.com/o/p/_workitems/edit/7"]
      (some "token") (.httpError 401 "Unauthorized") =
      ⟨[.text (errLine (pyStr (.runtimeError (fetchErrMsg 401 "Unauthorized" 7))))],
       [], [⟨"o", "p", 7⟩], .exited 1⟩ :=
  ⟨by decide, rfl, rfl,
   mainRun_catches_pipeline_errors "https://dev.azure.com/o/p/_workitems/edit/7" "token"
     (.httpError 401 "Unauthorized") [⟨"o", "p", 7⟩]
     (.runtimeError (fetchErrMsg 401 "Unauthorized" 7)) (by decide) rfl rfl⟩

/-- C2 counterexample: a 2xx response whose JSON body is an object without
an `id` key ends the run with an uncaught `KeyError` — refuting "for every
possible HTTP response ... no run ever terminates with an uncaught
exception visible as a raw stack trace". -/
theorem mainRun_uncaught_keyError :
    (mainRun ["fetch_ticket.py", "https://dev.azure.com/o/p/_workitems/edit/1"]
      (some "token") (.success (some (.obj [])))).outcome =
      .crashed (.keyError "id") := by
  decide

/-! ### Figma matcher lemmas -/

theorem litAlt_consumes {alts : List (List Char)} {cs m r : List Char}
    (h : litAlt alts cs = some (m, r)) : cs = m ++ r ∧ m ∈ alts := by
  induction alts with
  | nil => simp [litAlt] at h
  | cons lit rest ih =>
    cases hm : matchLit lit cs with
    | some r0 =>
      rw [litAlt, hm] at h
      simp only [Option.some.injEq, Prod.mk.injEq] at h
      obtain ⟨rfl, rfl⟩ := h
      exact ⟨matchLit_eq_append hm, by simp⟩
    | none =>
      rw [litAlt, hm] at h
      obtain ⟨h1, h2⟩ := ih h
      exact ⟨h1, by simp [h2]⟩

theorem wwwSplit_consumes {cs m r : List Char} (h : wwwSplit cs = (m, r)) :
    cs = m ++ r := by
  cases hm : matchLit "www.".data cs with
  | some r0 =>
    rw [wwwSplit, hm] at h
    simp only [Prod.mk.injEq] at h
    obtain ⟨rfl, rfl⟩ := h
    exact matchLit_eq_append hm
  | none =>
    rw [wwwSplit, hm] at h
    simp only [Prod.mk.injEq] at h
    obtain ⟨rfl, rfl⟩ := h
    rfl

theorem takeWhile_drop_split (p : Char → Bool) (l : List Char) :
    l = l.takeWhile p ++ l.drop (l.takeWhile p).length := by
  obtain ⟨t, ht⟩ := (List.takeWhile_prefix (p := p) (l := l))
  have h2 := List.drop_left (l.takeWhile p) t
  rw [ht] at h2
  rw [h2]
  exact ht.symm

theorem figmaTail_consumes {cs m r : List Char} (h : figmaTail cs = some (m, r)) :
    cs = m ++ r := by
  unfold figmaTail at h
  by_cases hid : (cs.takeWhile figmaIdChar).isEmpty
  · rw [if_pos hid] at h
    simp at h
  · rw [if_neg hid] at h
    have hsplit := takeWhile_drop_split figmaIdChar cs
    split at h
    · rename_i r0 heq
      simp only [Option.some.injEq, Prod.mk.injEq] at h
      obtain ⟨rfl, rfl⟩ := h
      have hsplit2 := takeWhile_drop_split (fun c => !figmaStop c) r0
      calc cs = cs.takeWhile figmaIdChar ++ ('/' :: r0) := by
            conv_lhs => rw [hsplit]
            rw [heq]
        _ = cs.takeWhile figmaIdChar ++ ('/' ::
            (r0.takeWhile (fun c => !figmaStop c) ++
             r0.drop (r0.takeWhile (fun c => !figmaStop c)).length)) := by
              rw [← hsplit2]
        _ = (cs.takeWhile figmaIdChar ++ '/' :: r0.takeWhile (fun c => !figmaStop c)) ++
            r0.drop (r0.takeWhile (fun c => !figmaStop c)).length := by
              simp [List.append_assoc]
    · simp only [Option.some.injEq, Prod.mk.injEq] at h
      obtain ⟨rfl, rfl⟩ := h
      exact hsplit

theorem matchFigmaAt_consumes {cs m r : List Char}
    (h : matchFigmaAt cs = some (m, r)) : cs = m ++ r ∧ ∃ u, m = 'h' :: u := by
  unfold matchFigmaAt at h
  cases h1 : litAlt ["https://".data, "http://".data] cs with
  | none => rw [h1] at h; simp at h
  | some p1 =>
    obtain ⟨s1, r1⟩ := p1
    rw [h1] at h
    dsimp only at h
    obtain ⟨hc1, hm1⟩ := litAlt_consumes h1
    cases h2 : wwwSplit r1 with
    | mk s2 r2 =>
      rw [h2] at h
      dsimp only at h
      have hc2 := wwwSplit_consumes h2
      cases h3 : matchLit "figma.com/".data r2 with
      | none => rw [h3] at h; simp at h
      | some r3 =>
        rw [h3] at h
        dsimp only at h
        have hc3 := matchLit_eq_append h3
        cases h4 : litAlt ["file/".data, "design/".data, "proto/".data] r3 with
        | none => rw [h4] at h; simp at h
        | some p4 =>
          obtain ⟨s4, r4⟩ := p4
          rw [h4] at h
          dsimp only at h
          obtain ⟨hc4, -⟩ := litAlt_consumes h4
          cases h5 : figmaTail r4 with
          | none => rw [h5] at h; simp at h
          | some p5 =>
            obtain ⟨s5, r5⟩ := p5
            rw [h5] at h
            dsimp only at h
            have hc5 := figmaTail_consumes h5
            simp only [Option.some.injEq, Prod.mk.injEq] at h
            obtain ⟨rfl, rfl⟩ := h
            constructor
            · rw [hc1, hc2, hc3, hc4, hc5]
              simp [List.append_assoc]
            · simp only [List.mem_cons, List.mem_singleton] at hm1
              rcases hm1 with h1' | h1' | h1'
              · subst h1'
                exact ⟨_, rfl⟩
              · subst h1'
                exact ⟨_, rfl⟩
              · simp at h1'

theorem searchFigma_first {cs m : List Char} (h : searchFigma cs = some m) :
    ∃ i r, matchFigmaAt (cs.drop i) = some (m, r) ∧
      ∀ j < i, matchFigmaAt (cs.drop j) = none := by
  induction cs with
  | nil => simp [searchFigma] at h
  | cons c rest ih =>
    cases hm : matchFigmaAt (c :: rest) with
    | some p =>
      obtain ⟨m0, r0⟩ := p
      have hs : searchFigma (c :: rest) = some m0 := by
        rw [searchFigma, hm]
      rw [hs] at h
      simp only [Option.some.injEq] at h
      subst h
      exact ⟨0, r0, by simpa using hm, fun j hj => absurd hj (by omega)⟩
    | none =>
      have hs : searchFigma (c :: rest) = searchFigma rest := by
        rw [searchFigma, hm]
      rw [hs] at h
      obtain ⟨i, r, h1, h2⟩ := ih h
      refine ⟨i + 1, r, by simpa using h1, ?_⟩
      intro j hj
      cases j with
      | zero => simpa using hm
      | succ j' => simpa using h2 j' (by omega)

theorem rstrip_head (y : List Char) :
    (rstripChars y).head? = y.head? ∨ rstripChars y = [] := by
  obtain ⟨t, ht, -⟩ := rstrip_eq_append y
  cases hr : rstripChars y with
  | nil => exact Or.inr rfl
  | cons a u =>
    rw [hr] at ht
    rw [ht]
    exact Or.inl rfl

/-! ### Shape of a successfully built ticket -/

theorem buildTicket_ok_parts (data t : Json) (h : buildTicketJson data = Except.ok t) :
    ∃ raw fields araw idv title state wtype href,
      rawDescription data = Except.ok raw ∧
      pyGet data "fields" (.obj []) = Except.ok fields ∧
      pyGet fields "System.AssignedTo" Json.null = Except.ok araw ∧
      t = Json.obj [("id", idv), ("title", title),
        ("description", .str (strip_html raw)), ("state", state),
        ("type", wtype), ("assignedTo", resolveAssigned araw), ("url", href),
        ("figmaUrl", match extract_figma_url raw with
          | some u => Json.str u | none => Json.null)] := by
  unfold buildTicketJson at h
  cases h1 : rawDescription data with
  | error e => rw [h1] at h; simp at h
  | ok raw =>
    rw [h1] at h
    dsimp only at h
    cases h2 : pyGet data "fields" (.obj []) with
    | error e => rw [h2] at h; simp at h
    | ok fields =>
      rw [h2] at h
      dsimp only at h
      cases h3 : pyGet fields "System.AssignedTo" Json.null with
      | error e => rw [h3] at h; simp at h
      | ok araw =>
        rw [h3] at h
        dsimp only at h
        cases h4 : pySubscript data "id" with
        | error e => rw [h4] at h; simp at h
        | ok idv =>
          rw [h4] at h
          dsimp only at h
          cases h5 : pyGet fields "System.Title" (.str "") with
          | error e => rw [h5] at h; simp at h
          | ok title =>
            rw [h5] at h
            dsimp only at h
            cases h6 : pyGet fields "System.State" (.str "") with
            | error e => rw [h6] at h; simp at h
            | ok state =>
              rw [h6] at h
              dsimp only at h
              cases h7 : pyGet fields "System.WorkItemType" (.str "") with
              | error e => rw [h7] at h; simp at h
              | ok wtype =>
                rw [h7] at h
                dsimp only at h
                cases h8 : pyGet data "_links" (.obj []) with
                | error e => rw [h8] at h; simp at h
                | ok links =>
                  rw [h8] at h
                  dsimp only at h
                  cases h9 : pyGet links "html" (.obj []) with
                  | error e => rw [h9] at h; simp at h
                  | ok htmlv =>
                    rw [h9] at h
                    dsimp only at h
                    cases h10 : pyGet htmlv "href" (.str "") with
                    | error e => rw [h10] at h; simp at h
                    | ok href =>
                      rw [h10] at h
                      dsimp only at h
                      simp only [Except.ok.injEq] at h
                      exact ⟨raw, fields, araw, idv, title, state, wtype, href,
                        rfl, rfl, h3, h.symm⟩

/-! ### Claim C8 -/

/-- C8: on the documented example description, the extractor returns exactly
the Figma URL (the trailing closing-tag characters excluded by the stop
class) and the normalizer returns exactly `See design here`. -/
theorem figma_example_exact :
    extract_figma_url "See <a href=\"https://www.figma.com/file/ABC123/My-Design?node-id=1\">design</a> here" =
      some "https://www.figma.com/file/ABC123/My-Design?node-id=1" ∧
    strip_html "See <a href=\"https://www.figma.com/file/ABC123/My-Design?node-id=1\">design</a> here" =
      "See design here" :=
  ⟨by decide, by decide⟩

/-! ### Claim C9 -/

/-- C9: the link extractor runs on the raw pre-normalization markup — in
every successfully built ticket, `figmaUrl` is the extractor applied to the
raw description while `description` is the normalizer applied to the same
raw text (the normalized text is never re-scanned); a returned match is a
verbatim contiguous substring of the input, taken at the leftmost matching
position; a match is never the empty string; and empty input (the script
reads an absent field as `''`) gives an absent result.  The extractor is a
total Lean function, so no exception is possible. -/
theorem extract_figma_contract (data t : Json) (u s : String) :
    (buildTicketJson data = Except.ok t →
      ∃ raw, rawDescription data = Except.ok raw ∧
        jsonField t "figmaUrl" = some (match extract_figma_url raw with
          | some f => Json.str f | none => Json.null) ∧
        jsonField t "description" = some (.str (strip_html raw))) ∧
    (extract_figma_url u = some s →
      s ≠ "" ∧ containsSub s u ∧
      ∃ i r, matchFigmaAt (u.data.drop i) = some (s.data, r) ∧
        ∀ j < i, matchFigmaAt (u.data.drop j) = none) ∧
    extract_figma_url "" = none := by
  refine ⟨?_, ?_, rfl⟩
  · intro h
    obtain ⟨raw, fields, araw, idv, title, state, wtype, href, h1, h2, h3, ht⟩ :=
      buildTicket_ok_parts data t h
    refine ⟨raw, h1, ?_, ?_⟩
    · rw [ht]
      simp [jsonField, lookupLast]
    · rw [ht]
      simp [jsonField, lookupLast]
  · intro h
    unfold extract_figma_url at h
    by_cases hu : u = ""
    · rw [if_pos hu] at h
      simp at h
    · rw [if_neg hu] at h
      cases hm : searchFigma u.data with
      | none => rw [hm] at h; simp at h
      | some mm =>
        rw [hm] at h
        simp only [Option.map_some', Option.some.injEq] at h
        subst h
        obtain ⟨i, r, hi, hj⟩ := searchFigma_first hm
        obtain ⟨hcons, u', hu'⟩ := matchFigmaAt_consumes hi
        have hdat : (String.mk mm).data = mm := rfl
        refine ⟨?_, ?_, i, r, ?_, hj⟩
        · intro he
          have h2 := congrArg String.data he
          rw [hdat, hu'] at h2
          simp at h2
        · refine ⟨u.data.take i, r, ?_⟩
          rw [hdat]
          conv_lhs => rw [← List.take_append_drop i u.data]
          rw [hcons]
          simp [List.append_assoc]
        · rw [hdat]
          exact hi

theorem extract_figma_contract_witness :
    (buildTicketJson (Json.obj [("id", Json.num 3),
        ("fields", Json.obj [("System.Description",
          Json.str "See <a href=\"https://www.figma.com/file/A1/B?x=1\">d</a>")])]) =
      Except.ok (Json.obj [("id", Json.num 3), ("title", Json.str ""),
        ("description", Json.str "See d"), ("state", Json.str ""),
        ("type", Json.str ""), ("assignedTo", Json.null), ("url", Json.str ""),
        ("figmaUrl", Json.str "https://www.figma.com/file/A1/B?x=1")]) ∧
      (∃ raw, rawDescription (Json.obj [("id", Json.num 3),
          ("fields", Json.obj [("System.Description",
            Json.str "See <a href=\"https://www.figma.com/file/A1/B?x=1\">d</a>")])]) =
          Except.ok raw ∧
        jsonField (Json.obj [("id", Json.num 3), ("title", Json.str ""),
          ("description", Json.str "See d"), ("state", Json.str ""),
          ("type", Json.str ""), ("assignedTo", Json.null), ("url", Json.str ""),
          ("figmaUrl", Json.str "https://www.figma.com/file/A1/B?x=1")]) "figmaUrl" =
          some (match extract_figma_url raw with
            | some f => Json.str f | none => Json.null) ∧
        jsonField (Json.obj [("id", Json.num 3), ("title", Json.str ""),
          ("description", Json.str "See d"), ("state", Json.str ""),
          ("type", Json.str ""), ("assignedTo", Json.null), ("url", Json.str ""),
          ("figmaUrl", Json.str "https://www.figma.com/file/A1/B?x=1")]) "description" =
          some (.str (strip_html raw)))) ∧
    (extract_figma_url "See <a href=\"https://www.figma.com/file/A1/B?x=1\">d</a>" =
        some "https://www.figma.com/file/A1/B?x=1" ∧
      ("https://www.figma.com/file/A1/B?x=1" : String) ≠ "" ∧
      containsSub "https://www.figma.com/file/A1/B?x=1"
        "See <a href=\"https://www.figma.com/file/A1/B?x=1\">d</a>" ∧
      ∃ i r, matchFigmaAt (("See <a href=\"https://www.figma.com/file/A1/B?x=1\">d</a>" : String).data.drop i) =
          some (("https://www.figma.com/file/A1/B?x=1" : String).data, r) ∧
        ∀ j < i, matchFigmaAt (("See <a href=\"https://www.figma.com/file/A1/B?x=1\">d</a>" : String).data.drop j) = none) ∧
    extract_figma_url "" = none :=
  ⟨⟨rfl, (extract_figma_contract _ _ "" "").1 rfl⟩,
   ⟨by decide, (extract_figma_contract (Json.null) (Json.null) _ _).2.1 (by decide)⟩,
   (extract_figma_contract (Json.null) (Json.null) "" "").2.2⟩

/-! ### Claim C6 -/

/-- C6: the `assignedTo` field of the resulting record resolves as: an
object value gives its `displayName` property; a plain string gives the
string itself; and when the field is missing (or the object lacks a
`displayName`) the result is `null` with the key present — consistently
`null`, never an absent key. -/
theorem assignedTo_resolution (props fieldsKvs dataKvs : List (String × Json))
    (s : String) (d t : Json) :
    resolveAssigned (.str s) = .str s ∧
    (lookupLast props "displayName" = some d → resolveAssigned (.obj props) = d) ∧
    (lookupLast props "displayName" = none → resolveAssigned (.obj props) = Json.null) ∧
    (lookupLast dataKvs "fields" = some (.obj fieldsKvs) →
      lookupLast fieldsKvs "System.AssignedTo" = none →
      buildTicketJson (.obj dataKvs) = Except.ok t →
      jsonField t "assignedTo" = some Json.null) := by
  refine ⟨rfl, ?_, ?_, ?_⟩
  · intro h
    simp [resolveAssigned, h]
  · intro h
    simp [resolveAssigned, h]
  · intro hf ha h
    obtain ⟨raw, fields, araw, idv, title, state, wtype, href, h1, h2, h3, ht⟩ :=
      buildTicket_ok_parts _ t h
    have hfe : fields = Json.obj fieldsKvs := by
      have hx : pyGet (.obj dataKvs) "fields" (.obj []) = Except.ok (.obj fieldsKvs) := by
        simp [pyGet, hf]
      rw [hx] at h2
      simp only [Except.ok.injEq] at h2
      exact h2.symm
    have hae : araw = Json.null := by
      rw [hfe] at h3
      have hx : pyGet (Json.obj fieldsKvs) "System.AssignedTo" Json.null =
          Except.ok Json.null := by
        simp [pyGet, ha]
      rw [hx] at h3
      simp only [Except.ok.injEq] at h3
      exact h3.symm
    rw [ht, hae]
    simp [jsonField, lookupLast, resolveAssigned]

theorem assignedTo_resolution_witness :
    (lookupLast [("displayName", Json.str "Jane Doe")] "displayName" =
        some (Json.str "Jane Doe") ∧
      resolveAssigned (.obj [("displayName", Json.str "Jane Doe")]) =
        Json.str "Jane Doe") ∧
    resolveAssigned (.str "Jane Doe") = Json.str "Jane Doe" ∧
    (lookupLast [("System.Title", Json.str "T")] "System.AssignedTo" = none ∧
      buildTicketJson (Json.obj [("id", Json.num 7),
        ("fields", Json.obj [("System.Title", Json.str "T")])]) =
        Except.ok (Json.obj [("id", Json.num 7), ("title", Json.str "T"),
          ("description", Json.str ""), ("state", Json.str ""),
          ("type", Json.str ""), ("assignedTo", Json.null), ("url", Json.str ""),
          ("figmaUrl", Json.null)]) ∧
      jsonField (Json.obj [("id", Json.num 7), ("title", Json.str "T"),
          ("description", Json.str ""), ("state", Json.str ""),
          ("type", Json.str ""), ("assignedTo", Json.null), ("url", Json.str ""),
          ("figmaUrl", Json.null)]) "assignedTo" = some Json.null) :=
  ⟨⟨rfl, (assignedTo_resolution [("displayName", Json.str "Jane Doe")] [] []
      "" (Json.str "Jane Doe") Json.null).2.1 rfl⟩,
   (assignedTo_resolution [] [] [] "Jane Doe" Json.null Json.null).1,
   ⟨rfl, rfl,
    (assignedTo_resolution [] [("System.Title", Json.str "T")]
      [("id", Json.num 7), ("fields", Json.obj [("System.Title", Json.str "T")])]
      "" Json.null
      (Json.obj [("id", Json.num 7), ("title", Json.str "T"),
        ("description", Json.str ""), ("state", Json.str ""),
        ("type", Json.str ""), ("assignedTo", Json.null), ("url", Json.str ""),
        ("figmaUrl", Json.null)])).2.2.2 rfl rfl rfl⟩⟩

/-! ### Normalizer lemmas -/

theorem subTagsAux_id (cs : List Char) (h : '<' ∉ cs) : subTagsAux cs none = cs := by
  induction cs with
  | nil => rfl
  | cons c rest ih =>
    have hc : c ≠ '<' := fun he => h (by simp [he])
    have hr : '<' ∉ rest := fun hm => h (by simp [hm])
    simp [subTagsAux, hc, ih hr]

theorem subTags_id (cs : List Char) (h : '<' ∉ cs) : subTags cs = cs :=
  subTagsAux_id cs h

theorem unescapeAux_id (fuel : Nat) (cs : List Char) (h : '&' ∉ cs) :
    unescapeAux fuel cs = cs := by
  induction cs generalizing fuel with
  | nil => cases fuel <;> rfl
  | cons c rest ih =>
    cases fuel with
    | zero => rfl
    | succ f =>
      have hc : c ≠ '&' := fun he => h (by simp [he])
      have hr : '&' ∉ rest := fun hm => h (by simp [hm])
      simp [unescapeAux, hc, ih f hr]

theorem unescape_id (cs : List Char) (h : '&' ∉ cs) : unescapeChars cs = cs :=
  unescapeAux_id cs.length cs h

theorem noDbl_tail (a : Char) (l : List Char) (h : noDbl (a :: l)) : noDbl l := by
  cases l with
  | nil => trivial
  | cons b t => exact h.2

theorem noDbl_cons (a : Char) (l : List Char)
    (h1 : a = ' ' → l.head? ≠ some ' ') (h2 : noDbl l) : noDbl (a :: l) := by
  cases l with
  | nil => trivial
  | cons b t =>
    refine ⟨?_, h2⟩
    rintro ⟨ha, hb⟩
    exact h1 ha (by simp [hb])

theorem collapse_props (cs : List Char) :
    spacesOnly (collapseAux false cs) ∧ noDbl (collapseAux false cs) ∧
    spacesOnly (collapseAux true cs) ∧ noDbl (collapseAux true cs) ∧
    (collapseAux true cs).head? ≠ some ' ' := by
  induction cs with
  | nil =>
    exact ⟨by intro c hc; simp [collapseAux] at hc, trivial,
      by intro c hc; simp [collapseAux] at hc, trivial, by simp [collapseAux]⟩
  | cons c rest ih =>
    obtain ⟨ihf, ihfd, iht, ihtd, ihth⟩ := ih
    by_cases hc : isSpc c = true
    · have e1 : collapseAux false (c :: rest) = ' ' :: collapseAux true rest := by
        simp [collapseAux, hc]
      have e2 : collapseAux true (c :: rest) = collapseAux true rest := by
        simp [collapseAux, hc]
      refine ⟨?_, ?_, ?_, ?_, ?_⟩
      · rw [e1]
        intro d hd hsp
        rcases List.mem_cons.mp hd with rfl | hd2
        · rfl
        · exact iht d hd2 hsp
      · rw [e1]
        exact noDbl_cons _ _ (fun _ => ihth) ihtd
      · rw [e2]
        exact iht
      · rw [e2]
        exact ihtd
      · rw [e2]
        exact ihth
    · have hc' : isSpc c = false := by
        cases hb : isSpc c
        · rfl
        · exact absurd hb hc
      have hcs : c ≠ ' ' := by
        intro he
        rw [he] at hc'
        simp [isSpc] at hc'
      have e1 : collapseAux false (c :: rest) = c :: collapseAux false rest := by
        simp [collapseAux, hc']
      have e2 : collapseAux true (c :: rest) = c :: collapseAux false rest := by
        simp [collapseAux, hc']
      have hso : spacesOnly (c :: collapseAux false rest) := by
        intro d hd hsp
        rcases List.mem_cons.mp hd with rfl | hd2
        · exact absurd hsp (by simp [hc'])
        · exact ihf d hd2 hsp
      have hnd : noDbl (c :: collapseAux false rest) :=
        noDbl_cons _ _ (fun ha => absurd ha hcs) ihfd
      exact ⟨by rw [e1]; exact hso, by rw [e1]; exact hnd,
        by rw [e2]; exact hso, by rw [e2]; exact hnd,
        by rw [e2]; simp [hcs]⟩

theorem collapse_id (y : List Char) (h1 : spacesOnly y) (h2 : noDbl y) :
    collapseAux false y = y ∧ (y.head? ≠ some ' ' → collapseAux true y = y) := by
  induction y with
  | nil => exact ⟨rfl, fun _ => rfl⟩
  | cons c rest ih =>
    have h1r : spacesOnly rest := fun d hd hsp => h1 d (List.mem_cons_of_mem _ hd) hsp
    have h2r : noDbl rest := noDbl_tail _ _ h2
    obtain ⟨ihf, iht⟩ := ih h1r h2r
    by_cases hc : isSpc c = true
    · have hce : c = ' ' := h1 c (by simp) hc
      subst hce
      have hh : rest.head? ≠ some ' ' := by
        cases rest with
        | nil => simp
        | cons b t =>
          intro hb
          simp only [List.head?_cons, Option.some.injEq] at hb
          exact h2.1 ⟨rfl, hb⟩
      constructor
      · have e1 : collapseAux false (' ' :: rest) = ' ' :: collapseAux true rest := rfl
        rw [e1, iht hh]
      · intro hhead
        exact absurd rfl hhead
    · have hc' : isSpc c = false := by
        cases hb : isSpc c
        · rfl
        · exact absurd hb hc
      have e1 : collapseAux false (c :: rest) = c :: collapseAux false rest := by
        simp [collapseAux, hc']
      have e2 : collapseAux true (c :: rest) = c :: collapseAux false rest := by
        simp [collapseAux, hc']
      exact ⟨by rw [e1, ihf], fun _ => by rw [e2, ihf]⟩

theorem lstrip_props (y : List Char) (h1 : spacesOnly y) (h2 : noDbl y) :
    spacesOnly (lstripChars y) ∧ noDbl (lstripChars y) ∧
    ∀ c, (lstripChars y).head? = some c → isSpc c = false := by
  induction y with
  | nil => exact ⟨h1, h2, by intro c hc; simp [lstripChars] at hc⟩
  | cons c rest ih =>
    by_cases hc : isSpc c = true
    · have e : lstripChars (c :: rest) = lstripChars rest := by
        simp [lstripChars, List.dropWhile_cons, hc]
      have h1r : spacesOnly rest := fun d hd hsp => h1 d (List.mem_cons_of_mem _ hd) hsp
      have h2r : noDbl rest := noDbl_tail _ _ h2
      obtain ⟨a, b, c3⟩ := ih h1r h2r
      exact ⟨by rw [e]; exact a, by rw [e]; exact b, by rw [e]; exact c3⟩
    · have hc' : isSpc c = false := by
        cases hb : isSpc c
        · rfl
        · exact absurd hb hc
      have e : lstripChars (c :: rest) = c :: rest := by
        simp [lstripChars, List.dropWhile_cons, hc']
      refine ⟨by rw [e]; exact h1, by rw [e]; exact h2, ?_⟩
      rw [e]
      intro d hd
      simp only [List.head?_cons, Option.some.injEq] at hd
      rw [← hd]
      exact hc'

theorem rstrip_props (y : List Char) (h1 : spacesOnly y) (h2 : noDbl y) :
    spacesOnly (rstripChars y) ∧ noDbl (rstripChars y) := by
  induction y with
  | nil => exact ⟨h1, h2⟩
  | cons c rest ih =>
    have h1r : spacesOnly rest := fun d hd hsp => h1 d (List.mem_cons_of_mem _ hd) hsp
    have h2r : noDbl rest := noDbl_tail _ _ h2
    obtain ⟨p1, p2⟩ := ih h1r h2r
    cases hb : ((rstripChars rest).isEmpty && isSpc c) with
    | true =>
      have e : rstripChars (c :: rest) = [] := by
        simp only [rstripChars]
        rw [hb]
        rfl
      rw [e]
      exact ⟨by intro d hd _; simp at hd, trivial⟩
    | false =>
      have e : rstripChars (c :: rest) = c :: rstripChars rest := by
        simp only [rstripChars]
        rw [hb]
        rfl
      rw [e]
      refine ⟨?_, ?_⟩
      · intro d hd hsp
        rcases List.mem_cons.mp hd with rfl | hd2
        · exact h1 d (by simp) hsp
        · exact p1 d hd2 hsp
      · refine noDbl_cons _ _ ?_ p2
        intro hce hhead
        rcases rstrip_head rest with hh | hh
        · rw [hh] at hhead
          cases rest with
          | nil => simp at hhead
          | cons b t =>
            simp only [List.head?_cons, Option.some.injEq] at hhead
            exact h2.1 ⟨hce, hhead⟩
        · rw [hh] at hhead
          simp at hhead

theorem rstrip_idem (l : List Char) : rstripChars (rstripChars l) = rstripChars l := by
  induction l with
  | nil => rfl
  | cons c rest ih =>
    cases hb : ((rstripChars rest).isEmpty && isSpc c) with
    | true =>
      have e : rstripChars (c :: rest) = [] := by
        simp only [rstripChars]
        rw [hb]
        rfl
      rw [e]
      rfl
    | false =>
      have e : rstripChars (c :: rest) = c :: rstripChars rest := by
        simp only [rstripChars]
        rw [hb]
        rfl
      rw [e]
      have e2 : rstripChars (c :: rstripChars rest) =
          if (rstripChars (rstripChars rest)).isEmpty && isSpc c then []
          else c :: rstripChars (rstripChars rest) := by
        simp only [rstripChars]
      rw [e2, ih, hb]
      rfl

theorem normWs_idem (z : List Char) : normWs (normWs z) = normWs z := by
  obtain ⟨c1, c2, -, -, -⟩ := collapse_props z
  obtain ⟨l1, l2, l3⟩ := lstrip_props (collapseAux false z) c1 c2
  obtain ⟨r1, r2⟩ := rstrip_props (lstripChars (collapseAux false z)) l1 l2
  have hcol : collapseAux false (normWs z) = normWs z :=
    (collapse_id (normWs z) r1 r2).1
  have hhead : ∀ c, (normWs z).head? = some c → isSpc c = false := by
    intro c hc
    rcases rstrip_head (lstripChars (collapseAux false z)) with hh | hh
    · exact l3 c (by rw [← hh]; exact hc)
    · have he : normWs z = [] := hh
      rw [he] at hc
      simp at hc
  have hls : lstripChars (normWs z) = normWs z := by
    cases hyy : normWs z with
    | nil => rfl
    | cons a t =>
      have ha := hhead a (by rw [hyy]; rfl)
      simp [lstripChars, List.dropWhile_cons, ha]
  have hrs : rstripChars (normWs z) = normWs z :=
    rstrip_idem (lstripChars (collapseAux false z))
  have e : normWs (normWs z) =
      rstripChars (lstripChars (collapseAux false (normWs z))) := rfl
  rw [e, hcol, hls, hrs]

/-! ### Claim C3 -/

/-- C3 counterexample: `strip_html` is not idempotent — entity decoding can
re-introduce markup characters that a second pass strips:
`strip_html "&lt;b&gt;" = "<b>"` but `strip_html "<b>" = ""`, so applying
the normalizer to the already-normalized `"<b>"` does not return it
unchanged. -/
theorem strip_html_not_idempotent :
    strip_html (strip_html "&lt;b&gt;") ≠ strip_html "&lt;b&gt;" := by
  decide

/-- C3 (amended): the normalizer is idempotent on every input whose
normalized form contains no `<` and no `&` character: when `strip_html s`
contains neither, `strip_html (strip_html s) = strip_html s`.  In general
idempotence fails, because decoding entities can re-introduce the markup
characters a second pass treats as tags or entities
(`strip_html_not_idempotent`). -/
theorem strip_html_idempotent_when_clean (s : String)
    (h1 : '<' ∉ (strip_html s).data) (h2 : '&' ∉ (strip_html s).data) :
    strip_html (strip_html s) = strip_html s := by
  by_cases hs0 : strip_html s = ""
  · rw [hs0]
    rfl
  · have hstep : strip_html (strip_html s) =
        if strip_html s = "" then ""
        else String.mk (normWs (unescapeChars (subTags (strip_html s).data))) := rfl
    rw [hstep, if_neg hs0, subTags_id _ h1, unescape_id _ h2]
    by_cases hs : s = ""
    · rw [hs] at hs0
      exact absurd rfl hs0
    · have hdef : strip_html s =
          String.mk (normWs (unescapeChars (subTags s.data))) := by
        have e : strip_html s = if s = "" then ""
            else String.mk (normWs (unescapeChars (subTags s.data))) := rfl
        rw [e, if_neg hs]
      rw [hdef]
      exact congrArg String.mk (normWs_idem (unescapeChars (subTags s.data)))

theorem strip_html_idempotent_when_clean_witness :
    '<' ∉ (strip_html "See <b>A</b>  B").data ∧
    '&' ∉ (strip_html "See <b>A</b>  B").data ∧
    strip_html (strip_html "See <b>A</b>  B") = strip_html "See <b>A</b>  B" :=
  ⟨by decide, by decide,
   strip_html_idempotent_when_clean "See <b>A</b>  B" (by decide) (by decide)⟩
